import Mathlib

/-!
Verification of the `logging` package (Go) against its natural-language
specification.  The Go source is shallowly embedded: pure functions become
Lean functions, the mutable global pipeline state becomes an explicit
`GlobalState` record threaded through the operations, `container/ring`
buffers become lists read from the ring's current position forward, Go maps
become association lists, and the filesystem touched by the rolling file
appender becomes an association list from file names to sizes.  Go `nil`
slices/maps are `Option.none`.  Log levels are the `uint8` constants of the
source, so `Nat` with the source's numeric values.
-/

namespace Logging

/-- `LogLevel` is `uint8` in the source; we keep the numeric scale so that
`<=` coincides with Go's integer comparison. -/
abbrev LogLevel := Nat

/-- DEFAULT is the sentinel "inherit" level (first `iota` value). -/
def DEFAULT : LogLevel := 0

/-- VERBOSE is the wordiest log level. -/
def VERBOSE : LogLevel := 1

/-- DEBUG level. -/
def DEBUG : LogLevel := 2

/-- INFO level. -/
def INFO : LogLevel := 3

/-- WARN level. -/
def WARN : LogLevel := 4

/-- ERROR level. -/
def ERROR : LogLevel := 5

/-- PANIC, the highest level. -/
def PANIC : LogLevel := 6

/-- `LogRecord` from the source.  `Logger` (the owning `*LoggerImpl`) is
modelled by identity: `none` is the default logger, `some n` the registered
logger named `n`.  `time.Time` is modelled as `Nat`. -/
structure LogRecord where
  Time : Nat
  Original : Nat
  Level : LogLevel
  Tags : Option (List String)
  Message : String
  Logger : Option String
deriving DecidableEq, Repr

/-- `LoggerImpl` from the source.  `tagLevels` is a Go map (nil allowed),
modelled as an optional association list; `buffer` is a `*ring.Ring`
(nil allowed), modelled as the list of slot values read from the ring's
current element forward. -/
structure LoggerImpl where
  name : String
  level : LogLevel
  tagLevels : Option (List (String × LogLevel))
  buffer : Option (List (Option LogRecord))
deriving DecidableEq, Repr

/-- Association-list lookup, modelling Go map indexing `m[tag]`. -/
def assocLookup {β : Type} : List (String × β) → String → Option β
  | [], _ => none
  | (k, v) :: rest, key => if k = key then some v else assocLookup rest key

/-- Lookup in a possibly-nil Go map. -/
def lookupTag (m : Option (List (String × LogLevel))) (tag : String) : Option LogLevel :=
  match m with
  | none => none
  | some xs => assocLookup xs tag

/-- `tagLevel, ok := m[tag]; ok && tagLevel <= l` for a possibly-nil map. -/
def tagMatches (m : Option (List (String × LogLevel))) (tag : String) (l : LogLevel) : Bool :=
  match lookupTag m tag with
  | some tagLevel => decide (tagLevel ≤ l)
  | none => false

/-- `checkTagLevel` from the source: scan the tags in order; a tag passes if
its configured level in the logger's map, or (for a non-default logger) in
the default logger's map, is `<= l`.  `isDflt` models the pointer test
`logger == defaultLogger`. -/
def checkTagLevel (dflt : LoggerImpl) (isDflt : Bool) (lg : LoggerImpl) (l : LogLevel) :
    List String → Bool
  | [] => false
  | tag :: rest =>
    if tagMatches lg.tagLevels tag l then true
    else if !isDflt && tagMatches dflt.tagLevels tag l then true
    else checkTagLevel dflt isDflt lg l rest

/-- `checkLevelWithTags` from the source: tag scan guarded by
`(logger.tagLevels != nil || defaultLogger.tagLevels != nil) && tags != nil`,
then the scalar-level fallback. -/
def checkLevelWithTags (dflt : LoggerImpl) (isDflt : Bool) (lg : LoggerImpl)
    (l : LogLevel) (tags : Option (List String)) : Bool :=
  let matchTag :=
    if (lg.tagLevels.isSome || dflt.tagLevels.isSome) && tags.isSome then
      checkTagLevel dflt isDflt lg l (tags.getD [])
    else false
  if matchTag then true
  else if lg.level ≠ DEFAULT then decide (lg.level ≤ l)
  else decide (dflt.level ≤ l)

/-- `CheckLevel` (the public method; the read lock is irrelevant in the
sequential embedding). -/
def CheckLevel (dflt : LoggerImpl) (isDflt : Bool) (lg : LoggerImpl)
    (l : LogLevel) (tags : Option (List String)) : Bool :=
  checkLevelWithTags dflt isDflt lg l tags

/-- Whether a possibly-nil Go map is non-empty (the spec's wording). -/
def specMapNonempty (m : Option (List (String × LogLevel))) : Bool :=
  match m with
  | none => false
  | some xs => !xs.isEmpty

/-- The scalar-level fallback of spec step 2. -/
def specFallback (dflt : LoggerImpl) (lg : LoggerImpl) (l : LogLevel) : Bool :=
  if lg.level ≠ DEFAULT then decide (lg.level ≤ l) else decide (dflt.level ≤ l)

/-- The two-step resolution algorithm exactly as the spec (§4.1) words it,
over a plain tag list: step 1 scans the tags when the list is non-empty and
one of the two tag-level maps is non-empty; step 2 is the scalar fallback. -/
def resolveSpec (dflt : LoggerImpl) (isDflt : Bool) (lg : LoggerImpl)
    (l : LogLevel) (ts : List String) : Bool :=
  if !ts.isEmpty && (specMapNonempty lg.tagLevels || specMapNonempty dflt.tagLevels) then
    if ts.any (fun tag =>
        tagMatches lg.tagLevels tag l || (!isDflt && tagMatches dflt.tagLevels tag l)) then
      true
    else specFallback dflt lg l
  else specFallback dflt lg l

lemma checkTagLevel_eq_any (dflt : LoggerImpl) (isDflt : Bool) (lg : LoggerImpl)
    (l : LogLevel) (ts : List String) :
    checkTagLevel dflt isDflt lg l ts =
      ts.any (fun tag =>
        tagMatches lg.tagLevels tag l || (!isDflt && tagMatches dflt.tagLevels tag l)) := by
  induction ts with
  | nil => rfl
  | cons tag rest ih =>
      simp only [checkTagLevel, List.any_cons, ih]
      by_cases h1 : tagMatches lg.tagLevels tag l
      · simp [h1]
      · by_cases h2 : !isDflt && tagMatches dflt.tagLevels tag l
        · simp [h1, h2]
        · simp [h1, h2]

lemma tagMatches_of_not_nonempty (m : Option (List (String × LogLevel)))
    (h : specMapNonempty m = false) (tag : String) (l : LogLevel) :
    tagMatches m tag l = false := by
  cases m with
  | none => rfl
  | some xs =>
      cases xs with
      | nil => rfl
      | cons p rest => simp [specMapNonempty] at h

/-- C1: `CheckLevel` computes exactly the two-step algorithm of spec §4.1:
a tag scan (logger's map first, then the default logger's map for
non-default loggers, first passing tag wins, too-strict tags never veto),
then the scalar fallback `logger.level` unless it is DEFAULT, else the
default logger's level.  A Go `nil` tag slice corresponds to the empty
spec-level tag list. -/
theorem checkLevel_eq_resolveSpec (dflt : LoggerImpl) (isDflt : Bool)
    (lg : LoggerImpl) (l : LogLevel) (tags : Option (List String)) :
    CheckLevel dflt isDflt lg l tags = resolveSpec dflt isDflt lg l (tags.getD []) := by
  cases tags with
  | none =>
      simp [CheckLevel, checkLevelWithTags, resolveSpec, specFallback]
  | some ts =>
      simp only [CheckLevel, checkLevelWithTags, resolveSpec, Option.getD_some,
        Option.isSome_some, Bool.and_true, checkTagLevel_eq_any]
      by_cases hm : (lg.tagLevels.isSome || dflt.tagLevels.isSome) = true
      · by_cases hne : (!ts.isEmpty && (specMapNonempty lg.tagLevels ||
            specMapNonempty dflt.tagLevels)) = true
        · simp [hm, hne, specFallback]
        · -- the spec skips the scan: either no tags or both maps empty;
          -- in both cases the source's scan finds nothing
          have hany : ts.any (fun tag =>
              tagMatches lg.tagLevels tag l || (!isDflt && tagMatches dflt.tagLevels tag l)) =
              false := by
            rcases Bool.and_eq_false_iff.mp (Bool.not_eq_true _ ▸ hne) with h | h
            · have : ts.isEmpty = true := by
                cases hcase : ts.isEmpty
                · rw [hcase] at h; simp at h
                · rfl
              rcases ts with _ | ⟨a, rest⟩
              · rfl
              · simp [List.isEmpty] at this
            · have h1 : specMapNonempty lg.tagLevels = false := by
                cases hcase : specMapNonempty lg.tagLevels
                · rfl
                · rw [hcase] at h; simp at h
              have h2 : specMapNonempty dflt.tagLevels = false := by
                cases hcase : specMapNonempty dflt.tagLevels
                · rfl
                · rw [hcase] at h; simp at h
              simp only [List.any_eq_false]
              intro tag _
              simp [tagMatches_of_not_nonempty _ h1, tagMatches_of_not_nonempty _ h2]
          simp [hm, hne, hany, specFallback]
      · -- both maps are nil: the spec-side guard is false as well
        have h1 : lg.tagLevels = none := by
          cases hcase : lg.tagLevels <;> simp [hcase] at hm ⊢
        have h2 : dflt.tagLevels = none := by
          cases hcase : dflt.tagLevels <;> simp [hcase] at hm ⊢
        simp [hm, h1, h2, specMapNonempty, specFallback]

/-- A concrete default logger configuration (level INFO, as `init()` sets). -/
def dfltExample : LoggerImpl := ⟨"_default", INFO, none, none⟩

/-- A concrete named logger: scalar level ERROR, tag level DEBUG for "T". -/
def taggedExample : LoggerImpl := ⟨"app", ERROR, some [("T", DEBUG)], none⟩

/-- C2: tag overrides are strictly additive: whenever `CheckLevel(l, nil)`
passes, `CheckLevel(l, ts)` passes for every tag list `ts`; and concretely,
with scalar level ERROR and tag level DEBUG for tag "T", a DEBUG check
tagged "T" passes while the same check without tags fails. -/
theorem checkLevel_monotone_in_tags :
    (∀ (dflt : LoggerImpl) (isDflt : Bool) (lg : LoggerImpl) (l : LogLevel)
        (tags : Option (List String)),
      CheckLevel dflt isDflt lg l none = true → CheckLevel dflt isDflt lg l tags = true) ∧
    CheckLevel dfltExample false taggedExample DEBUG (some ["T"]) = true ∧
    CheckLevel dfltExample false taggedExample DEBUG none = false := by
  refine ⟨?_, by decide, by decide⟩
  intro dflt isDflt lg l tags h
  simp [CheckLevel, checkLevelWithTags] at h
  simp [CheckLevel, checkLevelWithTags]
  exact Or.inr h

/-- Witness for C2 at a concrete input: the monotonicity implication applied
to a logger whose untagged ERROR check passes. -/
theorem checkLevel_monotone_in_tags_witness :
    CheckLevel dfltExample false taggedExample ERROR (some ["x"]) = true :=
  checkLevel_monotone_in_tags.1 dfltExample false taggedExample ERROR (some ["x"])
    (by decide)

/-! ### The replay buffer: `container/ring` -/

/-- `ring.New(n)` for `n ≥ 1`: `n` slots, all nil, read from the current
element forward. -/
def freshRing (n : Nat) : List (Option LogRecord) :=
  List.replicate n none

/-- The buffer insertion of `processLogRecord`:
`buffer.Next().Value = record; buffer = buffer.Next()`.  The slot after the
current one is overwritten and becomes the new current slot, so reading the
ring from the new current element forward gives the record first, then the
remaining slots, then the old current slot last. -/
def ringInsert (slots : List (Option LogRecord)) (r : LogRecord) :
    List (Option LogRecord) :=
  match slots with
  | [] => []
  | [_] => [some r]
  | c :: _ :: rest => some r :: rest ++ [c]

/-- Iterated insertion, for describing a buffer by its insertion history. -/
def ringInsertAll (slots : List (Option LogRecord)) (recs : List LogRecord) :
    List (Option LogRecord) :=
  recs.foldl ringInsert slots

/-- `ring.Do` visiting order: the current element first, then forward around
the ring; nil slots are skipped by the flush callback. -/
def ringDo : List (Option LogRecord) → List LogRecord
  | [] => []
  | none :: rest => ringDo rest
  | some r :: rest => r :: ringDo rest

/-- `ring.Len()`, with the nil-receiver returning 0. -/
def ringLen (b : Option (List (Option LogRecord))) : Nat :=
  match b with
  | none => 0
  | some slots => slots.length

lemma ringInsert_length (slots : List (Option LogRecord)) (r : LogRecord) :
    (ringInsert slots r).length = slots.length := by
  match slots with
  | [] => rfl
  | [_] => rfl
  | c :: x :: rest => simp [ringInsert]

lemma ringInsertAll_length (slots : List (Option LogRecord)) (recs : List LogRecord) :
    (ringInsertAll slots recs).length = slots.length := by
  induction recs generalizing slots with
  | nil => rfl
  | cons r rest ih =>
      simp only [ringInsertAll, List.foldl_cons] at ih ⊢
      rw [ih, ringInsert_length]

lemma ringInsertAll_concat (slots : List (Option LogRecord)) (recs : List LogRecord)
    (r : LogRecord) :
    ringInsertAll slots (recs ++ [r]) = ringInsert (ringInsertAll slots recs) r := by
  simp [ringInsertAll, List.foldl_append]

/-- The shape of a buffer of capacity `n ≥ 1` after inserting
`recs ++ [last]` into a fresh ring: the newest record sits in the current
slot, followed by any still-empty slots, followed by the surviving older
records oldest first. -/
lemma ringInsertAll_fresh_concat (n : Nat) (hn : 1 ≤ n) :
    ∀ (recs : List LogRecord) (last : LogRecord),
    ringInsertAll (freshRing n) (recs ++ [last]) =
      some last ::
        (List.replicate (n - (recs.length + 1)) none ++
          (recs.drop (recs.length + 1 - n)).map some) := by
  intro recs
  induction recs using List.reverseRecOn with
  | nil =>
      intro last
      match n, hn with
      | 1, _ => rfl
      | (m + 2), _ =>
          simp only [List.nil_append, ringInsertAll, List.foldl_cons, List.foldl_nil,
            freshRing, List.replicate, ringInsert]
          simp [List.replicate_succ, ← List.replicate_succ' (n := m)]
  | append_singleton rs a ih =>
      intro last
      rw [ringInsertAll_concat, ih a]
      simp only [List.length_append, List.length_cons, List.length_nil, Nat.add_zero]
      rcases Nat.lt_or_ge (rs.length + 1) n with hlt | hge
      · -- the ring still has empty slots: the slot after the newest is nil
        have hm : n - (rs.length + 1) = (n - (rs.length + 1 + 1)) + 1 := by omega
        have hd : rs.length + 1 - n = 0 := by omega
        have hd2 : rs.length + 1 + 1 - n = 0 := by omega
        rw [hm, hd, hd2]
        simp only [List.drop_zero, List.replicate_succ, List.cons_append, ringInsert]
        simp [List.append_assoc]
      · -- the ring is full: the slot after the newest holds the oldest record
        have hm : n - (rs.length + 1) = 0 := by omega
        have hm2 : n - (rs.length + 1 + 1) = 0 := by omega
        rw [hm, hm2]
        simp only [List.replicate, List.nil_append]
        match n, hn, hge with
        | 1, _, _ =>
            have h1 : rs.length + 1 - 1 = rs.length := by omega
            have h2 : rs.length + 1 + 1 - 1 = rs.length + 1 := by omega
            rw [h1, h2, List.drop_length]
            have h3 : (rs ++ [a]).drop (rs.length + 1) = [] := by
              apply List.drop_eq_nil_of_le
              simp
            rw [h3]
            rfl
        | (m + 2), _, hge =>
            -- the dropped tail has length (m + 2) - 1 ≥ 1, so it is nonempty
            have hlen : (rs.drop (rs.length + 1 - (m + 2))).length = m + 1 := by
              rw [List.length_drop]; omega
            obtain ⟨b, tl, hbt⟩ : ∃ b tl, rs.drop (rs.length + 1 - (m + 2)) = b :: tl := by
              cases hcase : rs.drop (rs.length + 1 - (m + 2)) with
              | nil => rw [hcase] at hlen; simp at hlen
              | cons b tl => exact ⟨b, tl, rfl⟩
            rw [hbt]
            simp only [List.map_cons, ringInsert]
            have htl : tl = rs.drop (rs.length + 1 + 1 - (m + 2)) := by
              have he : rs.length + 1 + 1 - (m + 2) = (rs.length + 1 - (m + 2)) + 1 := by
                omega
              rw [he, ← List.drop_drop, hbt]
              rfl
            have hdrop : (rs ++ [a]).drop (rs.length + 1 + 1 - (m + 2)) =
                rs.drop (rs.length + 1 + 1 - (m + 2)) ++ [a] := by
              rw [List.drop_append_of_le_length]
              omega
            rw [hdrop, ← htl]
            simp

/-- Contents of a buffer in `ring.Do` order, by insertion history: the
most recently inserted record first, then the surviving older records from
oldest to newest. -/
def replayOrder (n : Nat) (recs : List LogRecord) : List LogRecord :=
  match recs.getLast? with
  | none => []
  | some last => last :: (recs.dropLast.drop (recs.length - n))

lemma ringDo_replicate_append (m : Nat) (l : List LogRecord) :
    ringDo (List.replicate m none ++ l.map some) = l := by
  induction m with
  | zero =>
      induction l with
      | nil => rfl
      | cons r rest ih => simpa [ringDo] using ih
  | succ k ih => simpa [List.replicate_succ, ringDo] using ih

lemma ringDo_fresh_insertAll (n : Nat) (hn : 1 ≤ n) (recs : List LogRecord) :
    ringDo (ringInsertAll (freshRing n) recs) = replayOrder n recs := by
  rcases List.eq_nil_or_concat recs with hnil | ⟨rs, last, hcat⟩
  · subst hnil
    simp only [ringInsertAll, List.foldl_nil, replayOrder, List.getLast?_nil]
    simpa using ringDo_replicate_append n []
  · rw [List.concat_eq_append] at hcat
    subst hcat
    rw [ringInsertAll_fresh_concat n hn rs last]
    simp only [replayOrder, List.getLast?_concat]
    have : ringDo (some last :: (List.replicate (n - (rs.length + 1)) none ++
        (rs.drop (rs.length + 1 - n)).map some)) =
        last :: rs.drop (rs.length + 1 - n) := by
      simp only [ringDo]
      rw [ringDo_replicate_append]
    rw [this]
    simp [List.dropLast_concat]

/-- A buffer that has seen at least `n` insertions holds exactly the `n`
most recent records: inserting into a full ring overwrites the oldest. -/
lemma ringDo_perm_lastN (n : Nat) (hn : 1 ≤ n) (recs : List LogRecord)
    (hfull : n ≤ recs.length) :
    (ringDo (ringInsertAll (freshRing n) recs)).Perm
      (recs.drop (recs.length - n)) := by
  rcases List.eq_nil_or_concat recs with hnil | ⟨rs, last, hcat⟩
  · subst hnil; simp at hfull; omega
  · rw [List.concat_eq_append] at hcat
    subst hcat
    rw [ringDo_fresh_insertAll n hn]
    simp only [replayOrder, List.getLast?_concat, List.dropLast_concat]
    have hle : (rs ++ [last]).length - n ≤ rs.length := by
      simp only [List.length_append, List.length_cons, List.length_nil]
      omega
    rw [List.drop_append_of_le_length hle]
    simp only [List.length_append, List.length_cons, List.length_nil]
    exact (List.perm_append_singleton last _).symm

/-! ### The global pipeline state

The package's global mutable state (`defaultLogger`, `loggers`,
`incomingChannel`, the `logged`/`processed` counters, `enableVerbose`) is
threaded explicitly.  The `incomingChannel` is a FIFO queue (append at the
back).  Records handed to `logToAppenders` are collected in `delivered`.
The concurrent flush goroutines are serialized in registry order; the
flush-triggering calls block until those tasks have copied every record
into the queue, which is exactly the post-state modelled here. -/

structure GlobalState where
  defaultLogger : LoggerImpl
  loggers : List (String × LoggerImpl)
  queue : List LogRecord
  delivered : List LogRecord
  logged : Nat
  processed : Nat
  enableVerbose : Bool
deriving DecidableEq, Repr

/-- Resolve a record's owning-logger identity (`record.Logger`) in the
current state: `none` is the default logger, `some n` the registry entry. -/
def getLoggerImpl (st : GlobalState) (owner : Option String) : Option LoggerImpl :=
  match owner with
  | none => some st.defaultLogger
  | some n => assocLookup st.loggers n

/-- Replace the registry entry named `n` (Go mutates the shared
`*LoggerImpl` the map points to). -/
def replaceEntry : List (String × LoggerImpl) → String → LoggerImpl →
    List (String × LoggerImpl)
  | [], _, _ => []
  | (k, v) :: rest, n, lg =>
      if k = n then (n, lg) :: replaceEntry rest n lg
      else (k, v) :: replaceEntry rest n lg

/-- Write back an updated owning logger. -/
def putLoggerImpl (st : GlobalState) (owner : Option String) (lg : LoggerImpl) :
    GlobalState :=
  match owner with
  | none => { st with defaultLogger := lg }
  | some n => { st with loggers := replaceEntry st.loggers n lg }

/-- `NewLogRecord` from the source. -/
def NewLogRecord (logger : Option String) (level : LogLevel) (tags : Option (List String))
    (message : String) (time : Nat) (original : Nat) : LogRecord :=
  ⟨time, original, level, tags, message, logger⟩

/-- `processLogRecord` from the source: resolve against the owning logger's
current configuration; on pass hand the record to the appenders; on failure
insert it into the owning logger's buffer when one exists and the level is
above VERBOSE; always bump `processed`. -/
def processLogRecord (st : GlobalState) (record : LogRecord) : GlobalState :=
  match getLoggerImpl st record.Logger with
  | none => { st with processed := st.processed + 1 }
  | some lg =>
    let passed := checkLevelWithTags st.defaultLogger record.Logger.isNone lg
      record.Level record.Tags
    if passed then
      { st with delivered := st.delivered ++ [record], processed := st.processed + 1 }
    else if lg.buffer.isSome && VERBOSE < record.Level then
      let st1 := putLoggerImpl st record.Logger
        { lg with buffer := lg.buffer.map (fun slots => ringInsert slots record) }
      { st1 with processed := st1.processed + 1 }
    else
      { st with processed := st.processed + 1 }

/-- `flushBuffer` from the source, acting on one logger: detach the buffer,
replace it by a fresh ring of the same length, and return the detached
records in `ring.Do` order with `Time` restamped to `now` (the records are
mutated in place in Go; `Original` is untouched). -/
def flushBuffer (now : Nat) (lg : LoggerImpl) : LoggerImpl × List LogRecord :=
  match lg.buffer with
  | none => (lg, [])
  | some slots =>
      ({ lg with buffer := some (freshRing slots.length) },
       (ringDo slots).map (fun r => { r with Time := now }))

/-- Append replayed records to the queue, bumping `logged` once per record
(the flush goroutine does `atomic.AddUint64(&logged, 1)` per record). -/
def enqueueReplay (st : GlobalState) (recs : List LogRecord) : GlobalState :=
  { st with queue := st.queue ++ recs, logged := st.logged + recs.length }

/-- `flushAllLoggers` from the source: flush every registered logger and the
default logger, each with its own goroutine; the goroutines are serialized
here in registry order with the default logger last. -/
def flushAllLoggers (st : GlobalState) (now : Nat) : GlobalState :=
  let flushed := st.loggers.map (fun p => (p.1, flushBuffer now p.2))
  let replays := (flushed.map (fun p => p.2.2)).flatten
  let (d2, dr) := flushBuffer now st.defaultLogger
  enqueueReplay
    { st with loggers := flushed.map (fun p => (p.1, p.2.1)), defaultLogger := d2 }
    (replays ++ dr)

/-- The shared tail of `SetLogLevel`/`SetTagLevel`: flush the receiver (all
loggers when it is the default logger) and wait for the re-enqueue tasks. -/
def flushAfterChange (st : GlobalState) (owner : Option String) (now : Nat) :
    GlobalState :=
  match owner with
  | none => flushAllLoggers st now
  | some _ =>
      match getLoggerImpl st owner with
      | none => st
      | some lg =>
          let (lg2, rs) := flushBuffer now lg
          enqueueReplay (putLoggerImpl st owner lg2) rs

/-- `SetLogLevel` from the source: store the level, then flush. -/
def SetLogLevel (st : GlobalState) (owner : Option String) (l : LogLevel) (now : Nat) :
    GlobalState :=
  match getLoggerImpl st owner with
  | none => st
  | some lg => flushAfterChange (putLoggerImpl st owner { lg with level := l }) owner now

/-- Go map assignment `m[tag] = l` on an association list. -/
def tagMapSet (m : List (String × LogLevel)) (tag : String) (l : LogLevel) :
    List (String × LogLevel) :=
  if (assocLookup m tag).isSome then
    m.map (fun p => if p.1 = tag then (tag, l) else p)
  else m ++ [(tag, l)]

/-- `SetTagLevel` from the source: create the tag map if nil, store the tag
level, then flush. -/
def SetTagLevel (st : GlobalState) (owner : Option String) (tag : String) (l : LogLevel)
    (now : Nat) : GlobalState :=
  match getLoggerImpl st owner with
  | none => st
  | some lg =>
      flushAfterChange
        (putLoggerImpl st owner
          { lg with tagLevels := some (tagMapSet (lg.tagLevels.getD []) tag l) })
        owner now

/-- `ring.New(length)` for a Go `int` argument: nil when `length <= 0`. -/
def ringNew (length : Int) : Option (List (Option LogRecord)) :=
  if length ≤ 0 then none else some (freshRing length.toNat)

/-- `setBufferLengthImpl` from the source: remove the buffer at length 0;
allocate a fresh ring when the requested length differs from the current
`buffer.Len()` (0 for a nil buffer); otherwise leave the buffer alone. -/
def setBufferLengthImpl (lg : LoggerImpl) (length : Int) : LoggerImpl :=
  if length = 0 then { lg with buffer := none }
  else if length ≠ (ringLen lg.buffer : Int) then { lg with buffer := ringNew length }
  else lg

/-- `SetBufferLength` (the public method; the lock is irrelevant here). -/
def SetBufferLength (lg : LoggerImpl) (length : Int) : LoggerImpl :=
  setBufferLengthImpl lg length

/-- `logwithformat` from the source.  `msg` is the already-formatted message
(`fmt.Sprint`/`fmt.Sprintf` are Go library calls); `stack` is the stack
trace captured by `runtime.Stack` for PANIC records.  Returns the new state
and the function's `uint64` result. -/
def logwithformat (st : GlobalState) (owner : Option String) (level : LogLevel)
    (tags : Option (List String)) (msg : String) (now : Nat) (stack : String) :
    GlobalState × Nat :=
  if level = VERBOSE && !st.enableVerbose then (st, 0)
  else
    let msg2 := if level = PANIC then msg ++ "\n  " ++ (stack.replace "\n" "\n  ")
      else msg
    let record := NewLogRecord owner level tags msg2 now now
    ({ st with queue := st.queue ++ [record], logged := st.logged + 1 }, st.logged + 1)

/-- C7: producing a record: a VERBOSE call while verbose logging is globally
disabled constructs no record, leaves `produced` unchanged and returns 0; in
every other case a record with `Time == Original == now` is constructed,
`produced` is incremented by one, and the record is enqueued with no level
or tag filtering at produce time. -/
theorem logwithformat_spec (st : GlobalState) (owner : Option String) (level : LogLevel)
    (tags : Option (List String)) (msg : String) (now : Nat) (stack : String) :
    (level = VERBOSE → st.enableVerbose = false →
      logwithformat st owner level tags msg now stack = (st, 0)) ∧
    ((level = VERBOSE → st.enableVerbose = true) →
      ∃ record : LogRecord,
        logwithformat st owner level tags msg now stack =
          ({ st with queue := st.queue ++ [record], logged := st.logged + 1 },
            st.logged + 1) ∧
        record.Time = now ∧ record.Original = now ∧ record.Level = level ∧
        record.Tags = tags ∧ record.Logger = owner) := by
  constructor
  · intro hv he
    simp [logwithformat, hv, he]
  · intro h
    have hcond : (decide (level = VERBOSE) && !st.enableVerbose) = false := by
      by_cases hv : level = VERBOSE
      · simp [hv, h hv]
      · simp [hv]
    refine ⟨NewLogRecord owner level tags
      (if level = PANIC then msg ++ "\n  " ++ (stack.replace "\n" "\n  ") else msg)
      now now, ?_, rfl, rfl, rfl, rfl, rfl⟩
    simp only [logwithformat, hcond, Bool.false_eq_true, if_false]

/-- An empty pipeline state for concrete evaluations. -/
def stEmpty : GlobalState := ⟨dfltExample, [], [], [], 0, 0, false⟩

/-- Witness for C7: both branches evaluated at concrete inputs. -/
theorem logwithformat_spec_witness :
    logwithformat stEmpty none VERBOSE none "v" 3 "" = (stEmpty, 0) ∧
    ∃ record : LogRecord,
      logwithformat stEmpty none INFO none "i" 3 "" =
        ({ stEmpty with
            queue := stEmpty.queue ++ [record]
            logged := stEmpty.logged + 1 }, stEmpty.logged + 1) ∧
      record.Time = 3 ∧ record.Original = 3 := by
  refine ⟨(logwithformat_spec stEmpty none VERBOSE none "v" 3 "").1 rfl rfl, ?_⟩
  obtain ⟨record, heq, ht, ho, _, _, _⟩ :=
    (logwithformat_spec stEmpty none INFO none "i" 3 "").2
      (by intro h; exact absurd h (by decide))
  exact ⟨record, heq, ht, ho⟩

/-- C10: `SetBufferLength(n)`: `n == 0` removes the buffer; a missing buffer
or a differing length allocates a fresh empty ring of capacity `n`; when `n`
equals the current buffer's length the buffer object and its suppressed
records are left untouched. -/
theorem setBufferLength_spec (lg : LoggerImpl) (n : Int) :
    (n = 0 → SetBufferLength lg n = { lg with buffer := none }) ∧
    (0 < n → lg.buffer = none →
      SetBufferLength lg n = { lg with buffer := some (freshRing n.toNat) }) ∧
    (0 < n → ∀ slots, lg.buffer = some slots → (slots.length : Int) ≠ n →
      SetBufferLength lg n = { lg with buffer := some (freshRing n.toNat) }) ∧
    (0 < n → ∀ slots, lg.buffer = some slots → (slots.length : Int) = n →
      SetBufferLength lg n = lg) := by
  refine ⟨?_, ?_, ?_, ?_⟩
  · intro h
    simp [SetBufferLength, setBufferLengthImpl, h]
  · intro hpos hnone
    have hne : n ≠ 0 := by omega
    have hlen : (ringLen lg.buffer : Int) = 0 := by simp [ringLen, hnone]
    simp only [SetBufferLength, setBufferLengthImpl, hne, if_false, hlen, if_neg]
    have : n ≠ (0 : Int) := hne
    simp [this, ringNew, show ¬n ≤ 0 by omega]
  · intro hpos slots hsome hne
    have hne0 : n ≠ 0 := by omega
    have hlen : (ringLen lg.buffer : Int) = (slots.length : Int) := by
      simp [ringLen, hsome]
    simp only [SetBufferLength, setBufferLengthImpl, hne0, if_false, hlen]
    simp [Ne.symm hne, ringNew, show ¬n ≤ 0 by omega]
  · intro hpos slots hsome heq
    have hne0 : n ≠ 0 := by omega
    have hlen : (ringLen lg.buffer : Int) = n := by simp [ringLen, hsome, heq]
    simp [SetBufferLength, setBufferLengthImpl, hne0, hlen]

/-- Witness for C10: the frame case — setting the length a buffer already
has leaves the buffered record in place. -/
theorem setBufferLength_spec_witness :
    SetBufferLength ⟨"app", ERROR, none,
        some [some (NewLogRecord (some "app") WARN none "m" 1 1)]⟩ 1 =
      ⟨"app", ERROR, none, some [some (NewLogRecord (some "app") WARN none "m" 1 1)]⟩ :=
  (setBufferLength_spec ⟨"app", ERROR, none,
      some [some (NewLogRecord (some "app") WARN none "m" 1 1)]⟩ 1).2.2.2
    (by decide) [some (NewLogRecord (some "app") WARN none "m" 1 1)] rfl (by decide)

@[simp]
lemma putLoggerImpl_processed (st : GlobalState) (o : Option String) (lg : LoggerImpl) :
    (putLoggerImpl st o lg).processed = st.processed := by
  cases o <;> rfl

@[simp]
lemma putLoggerImpl_delivered (st : GlobalState) (o : Option String) (lg : LoggerImpl) :
    (putLoggerImpl st o lg).delivered = st.delivered := by
  cases o <;> rfl

@[simp]
lemma putLoggerImpl_queue (st : GlobalState) (o : Option String) (lg : LoggerImpl) :
    (putLoggerImpl st o lg).queue = st.queue := by
  cases o <;> rfl

@[simp]
lemma putLoggerImpl_logged (st : GlobalState) (o : Option String) (lg : LoggerImpl) :
    (putLoggerImpl st o lg).logged = st.logged := by
  cases o <;> rfl

/-- C3: consuming a record: a passing record is handed to the sink chain;
a failing record is inserted into the owning logger's replay buffer exactly
when the logger has one and the record's level is strictly above VERBOSE
(a full buffer keeps the n most recent records, so the insertion overwrites
the oldest retained record), and is dropped otherwise; in every case the
consumed counter is incremented by exactly one. -/
theorem processLogRecord_spec :
    (∀ (st : GlobalState) (record : LogRecord),
      (processLogRecord st record).processed = st.processed + 1) ∧
    (∀ (st : GlobalState) (record : LogRecord) (lg : LoggerImpl),
      getLoggerImpl st record.Logger = some lg →
      checkLevelWithTags st.defaultLogger record.Logger.isNone lg record.Level
        record.Tags = true →
      processLogRecord st record =
        { st with delivered := st.delivered ++ [record], processed := st.processed + 1 }) ∧
    (∀ (st : GlobalState) (record : LogRecord) (lg : LoggerImpl)
        (slots : List (Option LogRecord)),
      getLoggerImpl st record.Logger = some lg →
      checkLevelWithTags st.defaultLogger record.Logger.isNone lg record.Level
        record.Tags = false →
      lg.buffer = some slots → VERBOSE < record.Level →
      processLogRecord st record =
        { putLoggerImpl st record.Logger
            { lg with buffer := some (ringInsert slots record) } with
          processed := st.processed + 1 } ∧
      (processLogRecord st record).delivered = st.delivered) ∧
    (∀ (st : GlobalState) (record : LogRecord) (lg : LoggerImpl),
      getLoggerImpl st record.Logger = some lg →
      checkLevelWithTags st.defaultLogger record.Logger.isNone lg record.Level
        record.Tags = false →
      (lg.buffer = none ∨ record.Level ≤ VERBOSE) →
      processLogRecord st record = { st with processed := st.processed + 1 }) ∧
    (∀ (n : Nat) (recs : List LogRecord) (record : LogRecord), 1 ≤ n → n ≤ recs.length →
      (ringDo (ringInsertAll (freshRing n) recs)).Perm
        (recs.drop (recs.length - n)) ∧
      (ringDo (ringInsert (ringInsertAll (freshRing n) recs) record)).Perm
        ((recs.drop (recs.length - n)).tail ++ [record])) := by
  refine ⟨?_, ?_, ?_, ?_, ?_⟩
  · intro st record
    unfold processLogRecord
    cases h : getLoggerImpl st record.Logger with
    | none => rfl
    | some lg =>
        simp only []
        split
        · rfl
        · split
          · simp
          · rfl
  · intro st record lg h hpass
    simp [processLogRecord, h, hpass]
  · intro st record lg slots h hfail hbuf hlvl
    have hcond : (lg.buffer.isSome && decide (VERBOSE < record.Level)) = true := by
      simp [hbuf, hlvl]
    constructor
    · simp [processLogRecord, h, hfail, hcond, hbuf, hlvl]
    · simp [processLogRecord, h, hfail, hcond, hbuf, hlvl]
  · intro st record lg h hfail hcase
    have hcond : (lg.buffer.isSome && decide (VERBOSE < record.Level)) = false := by
      rcases hcase with hb | hl
      · simp [hb]
      · simp [Nat.not_lt_of_le hl]
    simp [processLogRecord, h, hfail, hcond]
  · intro n recs record hn hfull
    refine ⟨ringDo_perm_lastN n hn recs hfull, ?_⟩
    rw [← ringInsertAll_concat]
    have hp := ringDo_perm_lastN n hn (recs ++ [record])
      (by simp; omega)
    have he : (recs ++ [record]).drop ((recs ++ [record]).length - n) =
        (recs.drop (recs.length - n)).tail ++ [record] := by
      rw [List.tail_drop]
      have h1 : (recs ++ [record]).length - n = recs.length - n + 1 := by
        simp only [List.length_append, List.length_cons, List.length_nil]
        omega
      rw [h1, List.drop_append_of_le_length (by omega)]
    rw [he] at hp
    exact hp

/-- A logger with an empty two-slot buffer, and a state registering it. -/
def lgW : LoggerImpl := ⟨"app", ERROR, none, some (freshRing 2)⟩

/-- State for the C3 witness. -/
def stW : GlobalState := ⟨dfltExample, [("app", lgW)], [], [], 0, 0, false⟩

/-- A record that passes the filter of `lgW`. -/
def recPassW : LogRecord := ⟨10, 10, ERROR, none, "e", some "app"⟩

/-- A record that fails the filter of `lgW` and is buffered. -/
def recBufW : LogRecord := ⟨11, 11, INFO, none, "i", some "app"⟩

/-- A record that fails the default logger's filter and is dropped. -/
def recDropW : LogRecord := ⟨12, 12, DEBUG, none, "d", none⟩

/-- Witness for C3: the pass, buffer and drop branches and the
full-buffer-overwrite permutation, each at a concrete input. -/
theorem processLogRecord_spec_witness :
    processLogRecord stW recPassW =
      { stW with delivered := stW.delivered ++ [recPassW],
                 processed := stW.processed + 1 } ∧
    processLogRecord stW recBufW =
      { putLoggerImpl stW recBufW.Logger
          { lgW with buffer := some (ringInsert (freshRing 2) recBufW) } with
        processed := stW.processed + 1 } ∧
    processLogRecord stW recDropW = { stW with processed := stW.processed + 1 } ∧
    (ringDo (ringInsert (ringInsertAll (freshRing 1) [recPassW]) recBufW)).Perm
      (([recPassW].drop ([recPassW].length - 1)).tail ++ [recBufW]) := by
  refine ⟨?_, ?_, ?_, ?_⟩
  · exact processLogRecord_spec.2.1 stW recPassW lgW (by decide) (by decide)
  · exact (processLogRecord_spec.2.2.1 stW recBufW lgW (freshRing 2) (by decide)
      (by decide) rfl (by decide)).1
  · exact processLogRecord_spec.2.2.2.1 stW recDropW dfltExample (by decide) (by decide)
      (Or.inl rfl)
  · exact (processLogRecord_spec.2.2.2.2 1 [recPassW] recBufW (by decide) (by decide)).2

lemma assocLookup_replaceEntry (ls : List (String × LoggerImpl)) (n : String)
    (lg : LoggerImpl) (key : String) :
    assocLookup (replaceEntry ls n lg) key =
      if key = n then (assocLookup ls n).map (fun _ => lg) else assocLookup ls key := by
  induction ls with
  | nil => simp [replaceEntry, assocLookup]
  | cons p rest ih =>
      obtain ⟨k, v⟩ := p
      by_cases hp : k = n
      · subst hp
        by_cases hk : key = k
        · subst hk
          simp [replaceEntry, assocLookup]
        · have hk2 : ¬k = key := fun h => hk h.symm
          simp only [replaceEntry, if_pos rfl, assocLookup, if_neg hk2, if_neg hk]
          simpa [hk] using ih
      · by_cases hpk : k = key
        · subst hpk
          simp [replaceEntry, assocLookup, hp]
        · simp only [replaceEntry, if_neg hp, assocLookup, if_neg hpk]
          exact ih

lemma replaceEntry_replaceEntry (ls : List (String × LoggerImpl)) (n : String)
    (a b : LoggerImpl) :
    replaceEntry (replaceEntry ls n a) n b = replaceEntry ls n b := by
  induction ls with
  | nil => rfl
  | cons p rest ih =>
      obtain ⟨k, v⟩ := p
      by_cases hp : k = n
      · simp [replaceEntry, hp, ih]
      · simp [replaceEntry, hp, ih]

lemma putLoggerImpl_putLoggerImpl (st : GlobalState) (o : Option String)
    (a b : LoggerImpl) :
    putLoggerImpl (putLoggerImpl st o a) o b = putLoggerImpl st o b := by
  cases o with
  | none => rfl
  | some n => simp [putLoggerImpl, replaceEntry_replaceEntry]

lemma getLoggerImpl_putLoggerImpl (st : GlobalState) (o : Option String)
    (v w : LoggerImpl) (h : getLoggerImpl st o = some v) :
    getLoggerImpl (putLoggerImpl st o w) o = some w := by
  cases o with
  | none => rfl
  | some n =>
      simp only [getLoggerImpl, putLoggerImpl] at h ⊢
      rw [assocLookup_replaceEntry, if_pos rfl, h]
      rfl

/-- C4 (amended): `SetLogLevel`/`SetTagLevel` on a buffered logger swap in a
fresh empty ring of the same capacity and re-enqueue the detached records —
the most recently buffered record first, then the remaining records from
oldest to newest (`replayOrder`) — each restamped with `Time = now` while
`Original` is kept, bumping `produced` once per record; targeting the
default logger flushes every registered logger plus the default logger
itself, and the call returns with all records already copied into the
queue. -/
theorem flushOnChange_spec :
    (∀ (st : GlobalState) (name : String) (lg : LoggerImpl) (l : LogLevel) (now : Nat)
        (cap : Nat) (recs : List LogRecord),
      assocLookup st.loggers name = some lg →
      lg.buffer = some (ringInsertAll (freshRing cap) recs) → 1 ≤ cap →
      SetLogLevel st (some name) l now =
        enqueueReplay
          (putLoggerImpl st (some name)
            { lg with level := l, buffer := some (freshRing cap) })
          ((replayOrder cap recs).map (fun r => { r with Time := now }))) ∧
    (∀ (st : GlobalState) (name : String) (lg : LoggerImpl) (tag : String)
        (l : LogLevel) (now : Nat) (cap : Nat) (recs : List LogRecord),
      assocLookup st.loggers name = some lg →
      lg.buffer = some (ringInsertAll (freshRing cap) recs) → 1 ≤ cap →
      SetTagLevel st (some name) tag l now =
        enqueueReplay
          (putLoggerImpl st (some name)
            { lg with tagLevels := some (tagMapSet (lg.tagLevels.getD []) tag l),
                      buffer := some (freshRing cap) })
          ((replayOrder cap recs).map (fun r => { r with Time := now }))) ∧
    (∀ (st : GlobalState) (l : LogLevel) (now : Nat),
      SetLogLevel st none l now =
        flushAllLoggers
          { st with defaultLogger := { st.defaultLogger with level := l } } now) ∧
    (∀ (st : GlobalState) (now : Nat),
      flushAllLoggers st now =
        enqueueReplay
          { st with
              loggers := st.loggers.map (fun p => (p.1, (flushBuffer now p.2).1))
              defaultLogger := (flushBuffer now st.defaultLogger).1 }
          ((st.loggers.map (fun p => (flushBuffer now p.2).2)).flatten ++
            (flushBuffer now st.defaultLogger).2)) ∧
    (∀ (now : Nat) (lg : LoggerImpl) (cap : Nat) (recs : List LogRecord),
      lg.buffer = some (ringInsertAll (freshRing cap) recs) → 1 ≤ cap →
      (flushBuffer now lg).1 = { lg with buffer := some (freshRing cap) } ∧
      (flushBuffer now lg).2 =
        (replayOrder cap recs).map (fun r => { r with Time := now })) ∧
    (∀ (now : Nat) (lg : LoggerImpl), lg.buffer = none →
      flushBuffer now lg = (lg, [])) := by
  have hflush : ∀ (now : Nat) (lg : LoggerImpl) (cap : Nat) (recs : List LogRecord),
      lg.buffer = some (ringInsertAll (freshRing cap) recs) → 1 ≤ cap →
      flushBuffer now lg =
        ({ lg with buffer := some (freshRing cap) },
          (replayOrder cap recs).map (fun r => { r with Time := now })) := by
    intro now lg cap recs hbuf hcap
    have hlen : (ringInsertAll (freshRing cap) recs).length = cap := by
      rw [ringInsertAll_length]
      simp [freshRing]
    simp only [flushBuffer, hbuf, hlen]
    rw [ringDo_fresh_insertAll cap hcap]
  refine ⟨?_, ?_, ?_, ?_, ?_, ?_⟩
  · intro st name lg l now cap recs hlook hbuf hcap
    have hget : getLoggerImpl st (some name) = some lg := hlook
    simp only [SetLogLevel, hget]
    have hget2 : getLoggerImpl (putLoggerImpl st (some name) { lg with level := l })
        (some name) = some { lg with level := l } :=
      getLoggerImpl_putLoggerImpl st (some name) lg _ hget
    simp only [flushAfterChange, hget2]
    rw [hflush now { lg with level := l } cap recs hbuf hcap]
    rw [putLoggerImpl_putLoggerImpl]
  · intro st name lg tag l now cap recs hlook hbuf hcap
    have hget : getLoggerImpl st (some name) = some lg := hlook
    simp only [SetTagLevel, hget]
    have hget2 : getLoggerImpl (putLoggerImpl st (some name)
        { lg with tagLevels := some (tagMapSet (lg.tagLevels.getD []) tag l) })
        (some name) =
        some { lg with tagLevels := some (tagMapSet (lg.tagLevels.getD []) tag l) } :=
      getLoggerImpl_putLoggerImpl st (some name) lg _ hget
    simp only [flushAfterChange, hget2]
    have hbuf2 : ({ lg with
        tagLevels := some (tagMapSet (lg.tagLevels.getD []) tag l) } : LoggerImpl).buffer =
        some (ringInsertAll (freshRing cap) recs) := hbuf
    rw [hflush now { lg with tagLevels := some (tagMapSet (lg.tagLevels.getD []) tag l) }
      cap recs hbuf2 hcap]
    rw [putLoggerImpl_putLoggerImpl]
  · intro st l now
    rfl
  · intro st now
    unfold flushAllLoggers
    rw [show flushBuffer now st.defaultLogger =
      ((flushBuffer now st.defaultLogger).1, (flushBuffer now st.defaultLogger).2) from rfl]
    simp only [List.map_map]
    rfl
  · intro now lg cap recs hbuf hcap
    rw [hflush now lg cap recs hbuf hcap]
    exact ⟨rfl, rfl⟩
  · intro now lg hbuf
    simp [flushBuffer, hbuf]

/-- Record buffered first (the oldest) in the C4 counterexample. -/
def r1C : LogRecord := ⟨1, 1, WARN, none, "a", some "app"⟩

/-- Record buffered second (the newest) in the C4 counterexample. -/
def r2C : LogRecord := ⟨2, 2, WARN, none, "b", some "app"⟩

/-- A logger whose two-slot buffer received `r1C` then `r2C`. -/
def lgC : LoggerImpl := ⟨"app", ERROR, none, some (ringInsertAll (freshRing 2) [r1C, r2C])⟩

/-- State for the C4 counterexample. -/
def stC : GlobalState := ⟨dfltExample, [("app", lgC)], [], [], 2, 2, false⟩

/-- Counterexample to C4 as stated: the buffer received `r1C` (oldest) then
`r2C`, yet the flush triggered by `SetLogLevel` re-enqueues `r2C` first —
`ring.Do` starts at the ring's current (most recently written) slot, so the
replay is not oldest-to-newest. -/
theorem setLogLevel_replay_order_counterexample :
    lgC.buffer = some (ringInsertAll (freshRing 2) [r1C, r2C]) ∧
    (SetLogLevel stC (some "app") DEBUG 5).queue =
      [{ r2C with Time := 5 }, { r1C with Time := 5 }] ∧
    (SetLogLevel stC (some "app") DEBUG 5).queue ≠
      [{ r1C with Time := 5 }, { r2C with Time := 5 }] := by
  decide

/-- Witness for C4 (amended) at a concrete input: the level change flushes
the two-record buffer, restamps times, and re-enqueues newest-first. -/
theorem flushOnChange_spec_witness :
    SetLogLevel stC (some "app") DEBUG 5 =
      enqueueReplay
        (putLoggerImpl stC (some "app")
          { lgC with level := DEBUG, buffer := some (freshRing 2) })
        ((replayOrder 2 [r1C, r2C]).map (fun r => { r with Time := 5 })) :=
  flushOnChange_spec.1 stC "app" lgC DEBUG 5 2 [r1C, r2C] rfl rfl (by decide)

lemma mem_ringInsert (slots : List (Option LogRecord)) (r : LogRecord)
    (x : Option LogRecord) (hx : x ∈ ringInsert slots r) : x = some r ∨ x ∈ slots := by
  match slots with
  | [] => cases hx
  | [c] =>
      simp [ringInsert] at hx
      exact Or.inl hx
  | c :: y :: rest =>
      simp only [ringInsert] at hx
      rcases List.mem_cons.mp hx with h | hx2
      · exact Or.inl h
      · rcases List.mem_append.mp hx2 with h | h
        · exact Or.inr (List.mem_cons_of_mem _ (List.mem_cons_of_mem _ h))
        · have hc : x = c := by simpa using h
          exact Or.inr (by simp [hc])

lemma getLoggerImpl_after_put (st : GlobalState) (o : Option String) (w : LoggerImpl)
    (ident : Option String) :
    getLoggerImpl (putLoggerImpl st o w) ident = getLoggerImpl st ident ∨
    (ident = o ∧ (∃ v, getLoggerImpl st ident = some v) ∧
      getLoggerImpl (putLoggerImpl st o w) ident = some w) ∨
    getLoggerImpl (putLoggerImpl st o w) ident = none := by
  cases o with
  | none =>
      cases ident with
      | none => exact Or.inr (Or.inl ⟨rfl, ⟨st.defaultLogger, rfl⟩, rfl⟩)
      | some m => exact Or.inl rfl
  | some n =>
      cases ident with
      | none => exact Or.inl rfl
      | some m =>
          by_cases hm : m = n
          · subst hm
            cases hv : assocLookup st.loggers m with
            | none =>
                refine Or.inr (Or.inr ?_)
                simp only [getLoggerImpl, putLoggerImpl]
                rw [assocLookup_replaceEntry, if_pos rfl, hv]
                rfl
            | some v =>
                refine Or.inr (Or.inl ⟨rfl, ⟨v, hv⟩, ?_⟩)
                simp only [getLoggerImpl, putLoggerImpl]
                rw [assocLookup_replaceEntry, if_pos rfl, hv]
                rfl
          · refine Or.inl ?_
            simp only [getLoggerImpl, putLoggerImpl]
            rw [assocLookup_replaceEntry, if_neg hm]

/-- C9 (amended): a record's `Original`, `Level`, `Tags`, `Message` and
owning logger never change after creation, and consumption hands records on
unchanged; the sole exception is the buffer flush, which restamps the
`Time` field of each buffered record to the flush time before re-enqueueing
it. -/
theorem logRecord_flush_restamps_time_only :
    (∀ (now : Nat) (lg : LoggerImpl) (r2 : LogRecord), r2 ∈ (flushBuffer now lg).2 →
      ∃ slots r0, lg.buffer = some slots ∧ r0 ∈ ringDo slots ∧
        r2 = { r0 with Time := now } ∧ r2.Original = r0.Original ∧
        r2.Level = r0.Level ∧ r2.Tags = r0.Tags ∧ r2.Message = r0.Message ∧
        r2.Logger = r0.Logger) ∧
    (∀ (st : GlobalState) (record : LogRecord),
      (processLogRecord st record).delivered = st.delivered ∨
      (processLogRecord st record).delivered = st.delivered ++ [record]) ∧
    (∀ (st : GlobalState) (record : LogRecord) (ident : Option String)
        (lg2 : LoggerImpl) (slots2 : List (Option LogRecord)) (r2 : LogRecord),
      getLoggerImpl (processLogRecord st record) ident = some lg2 →
      lg2.buffer = some slots2 → some r2 ∈ slots2 →
      r2 = record ∨
      ∃ lg1 slots1, getLoggerImpl st ident = some lg1 ∧ lg1.buffer = some slots1 ∧
        some r2 ∈ slots1) := by
  refine ⟨?_, ?_, ?_⟩
  · intro now lg r2 hmem
    cases hbuf : lg.buffer with
    | none => simp [flushBuffer, hbuf] at hmem
    | some slots =>
        simp only [flushBuffer, hbuf, List.mem_map] at hmem
        obtain ⟨r0, hr0, hr2⟩ := hmem
        exact ⟨slots, r0, rfl, hr0, hr2.symm, by rw [← hr2], by rw [← hr2],
          by rw [← hr2], by rw [← hr2], by rw [← hr2]⟩
  · intro st record
    unfold processLogRecord
    cases h : getLoggerImpl st record.Logger with
    | none => exact Or.inl rfl
    | some lg =>
        simp only []
        split
        · exact Or.inr rfl
        · split
          · simp
          · exact Or.inl rfl
  · intro st record ident lg2 slots2 r2 hget hbuf2 hmem2
    -- identify which state shape processLogRecord produced
    unfold processLogRecord at hget
    cases h : getLoggerImpl st record.Logger with
    | none =>
        rw [h] at hget
        have : getLoggerImpl st ident = some lg2 := by
          cases ident <;> exact hget
        exact Or.inr ⟨lg2, slots2, this, hbuf2, hmem2⟩
    | some lg =>
        rw [h] at hget
        simp only [] at hget
        by_cases hpass : checkLevelWithTags st.defaultLogger record.Logger.isNone lg
            record.Level record.Tags = true
        · rw [if_pos hpass] at hget
          have : getLoggerImpl st ident = some lg2 := by
            cases ident <;> exact hget
          exact Or.inr ⟨lg2, slots2, this, hbuf2, hmem2⟩
        · rw [if_neg hpass] at hget
          by_cases hcond : (lg.buffer.isSome && decide (VERBOSE < record.Level)) = true
          · rw [if_pos hcond] at hget
            have hget2 : getLoggerImpl (putLoggerImpl st record.Logger
                { lg with buffer := lg.buffer.map (fun slots => ringInsert slots record) })
                ident = some lg2 := by
              cases ident <;> exact hget
            rcases getLoggerImpl_after_put st record.Logger
                { lg with buffer := lg.buffer.map (fun slots => ringInsert slots record) }
                ident with hsame | ⟨hident, _, hw⟩ | hnone
            · rw [hget2] at hsame
              exact Or.inr ⟨lg2, slots2, hsame.symm, hbuf2, hmem2⟩
            · rw [hget2] at hw
              -- the updated logger: its buffer is the ring after inserting `record`
              have hlg2 : lg2 = { lg with
                  buffer := lg.buffer.map (fun slots => ringInsert slots record) } :=
                Option.some_injective _ hw
              obtain ⟨slots0, hslots0⟩ : ∃ slots0, lg.buffer = some slots0 := by
                rcases Bool.and_eq_true_iff.mp hcond with ⟨hs, _⟩
                exact Option.isSome_iff_exists.mp hs
              have hb2 : slots2 = ringInsert slots0 record := by
                rw [hlg2] at hbuf2
                simp only [hslots0, Option.map_some] at hbuf2
                exact (Option.some_injective _ hbuf2).symm
              rw [hb2] at hmem2
              rcases mem_ringInsert slots0 record (some r2) hmem2 with heq | hold
              · exact Or.inl (Option.some_injective _ heq)
              · exact Or.inr ⟨lg, slots0, by rw [hident]; exact h, hslots0, hold⟩
            · rw [hget2] at hnone
              cases hnone
          · rw [if_neg hcond] at hget
            have : getLoggerImpl st ident = some lg2 := by
              cases ident <;> exact hget
            exact Or.inr ⟨lg2, slots2, this, hbuf2, hmem2⟩

/-- A record buffered by `lgMutC` for the C9 counterexample. -/
def rMutC : LogRecord := ⟨1, 1, WARN, none, "m", some "app"⟩

/-- A logger whose one-slot buffer holds `rMutC`. -/
def lgMutC : LoggerImpl := ⟨"app", ERROR, none, some (ringInsertAll (freshRing 1) [rMutC])⟩

/-- Counterexample to C9 as stated: flushing `lgMutC`'s buffer re-emits the
buffered record with its `Time` field changed (the Go code mutates the
record in place via `record.Time = now`), so a LogRecord is not immutable
under flushing. -/
theorem logRecord_immutability_counterexample :
    lgMutC.buffer = some [some rMutC] ∧
    (flushBuffer 5 lgMutC).2 = [{ rMutC with Time := 5 }] ∧
    ({ rMutC with Time := 5 } : LogRecord).Time ≠ rMutC.Time ∧
    ({ rMutC with Time := 5 } : LogRecord).Original = rMutC.Original ∧
    ({ rMutC with Time := 5 } : LogRecord).Message = rMutC.Message := by
  decide

/-- Witness for C9 (amended): the flushed record of `lgMutC` is exactly the
buffered record with only `Time` restamped. -/
theorem logRecord_flush_restamps_time_only_witness :
    ∃ slots r0, lgMutC.buffer = some slots ∧ r0 ∈ ringDo slots ∧
      ({ rMutC with Time := 5 } : LogRecord) = { r0 with Time := 5 } ∧
      ({ rMutC with Time := 5 } : LogRecord).Original = r0.Original ∧
      ({ rMutC with Time := 5 } : LogRecord).Level = r0.Level ∧
      ({ rMutC with Time := 5 } : LogRecord).Tags = r0.Tags ∧
      ({ rMutC with Time := 5 } : LogRecord).Message = r0.Message ∧
      ({ rMutC with Time := 5 } : LogRecord).Logger = r0.Logger :=
  logRecord_flush_restamps_time_only.1 5 lgMutC { rMutC with Time := 5 } (by decide)

/-! ### Sink-chain dispatch and error observation -/

/-- The buffered error channel registered via `CaptureLoggingErrors`:
`cap` is its capacity, `buf` the errors currently sitting in it (never
drained during a dispatch). -/
structure ErrChan where
  cap : Nat
  buf : List String
deriving DecidableEq, Repr

/-- `logError` from the source: a non-nil error is sent to the registered
channel only when the send completes immediately (`select` with `default`),
i.e. when there is room; otherwise it is dropped.  With no channel
registered, errors are discarded. -/
def logError (ch : Option ErrChan) (err : Option String) : Option ErrChan :=
  match err, ch with
  | some e, some c => if c.buf.length < c.cap then some ⟨c.cap, c.buf ++ [e]⟩ else some c
  | _, _ => ch

/-- Sending a whole list of per-appender results through `logError`. -/
def sendAll (ch : Option ErrChan) (errs : List (Option String)) : Option ErrChan :=
  errs.foldl logError ch

/-- `logToAppenders` from the source: call `appender.Log(record)` on every
appender in registration order, feeding each returned error to `logError`.
An appender is modelled by the error its `Log` call returns for the record.
The first component collects the result of every call made, in order. -/
def logToAppenders (apps : List (LogRecord → Option String)) (record : LogRecord)
    (ch : Option ErrChan) : List (Option String) × Option ErrChan :=
  apps.foldl
    (fun acc app =>
      let err := app record
      (acc.1 ++ [err], logError acc.2 err))
    ([], ch)

lemma logToAppenders_foldl_acc (apps : List (LogRecord → Option String))
    (record : LogRecord) (acc : List (Option String) × Option ErrChan) :
    apps.foldl
      (fun acc app =>
        let err := app record
        (acc.1 ++ [err], logError acc.2 err))
      acc =
      (acc.1 ++ apps.map (fun a => a record),
        sendAll acc.2 (apps.map (fun a => a record))) := by
  induction apps generalizing acc with
  | nil => simp [sendAll]
  | cons app rest ih =>
      simp only [List.foldl_cons, List.map_cons, sendAll, ih]
      simp [sendAll, List.append_assoc]

lemma sendAll_none (errs : List (Option String)) : sendAll none errs = none := by
  induction errs with
  | nil => rfl
  | cons e rest ih =>
      cases e with
      | none => simpa [sendAll, logError] using ih
      | some s => simpa [sendAll, logError] using ih

lemma sendAll_some (errs : List (Option String)) :
    ∀ c : ErrChan, sendAll (some c) errs =
      some ⟨c.cap, c.buf ++ (errs.filterMap id).take (c.cap - c.buf.length)⟩ := by
  induction errs with
  | nil => intro c; simp [sendAll]
  | cons e rest ih =>
      intro c
      cases e with
      | none =>
          simp only [sendAll, List.foldl_cons, logError] at ih ⊢
          rw [ih c]
          simp
      | some s =>
          by_cases hroom : c.buf.length < c.cap
          · simp only [sendAll, List.foldl_cons, logError, if_pos hroom] at ih ⊢
            rw [ih ⟨c.cap, c.buf ++ [s]⟩]
            have harith : c.cap - c.buf.length = (c.cap - (c.buf.length + 1)) + 1 := by
              omega
            have hfm : List.filterMap id (some s :: rest) = s :: List.filterMap id rest := by
              simp
            have hlen : (c.buf ++ [s]).length = c.buf.length + 1 := by simp
            rw [hfm, hlen, harith, List.take_succ_cons]
            simp [List.append_assoc]
          · simp only [sendAll, List.foldl_cons, logError, if_neg hroom] at ih ⊢
            rw [ih c]
            have h0 : c.cap - c.buf.length = 0 := by omega
            simp [h0]

/-- C8: dispatching calls every appender in registration order regardless of
errors returned by earlier appenders; each non-nil error reaches the
registered channel exactly when room is left at send time (the channel thus
receives the longest prefix of non-nil errors that fits), and is silently
dropped otherwise; with no channel registered all errors are discarded and
delivery is unaffected. -/
theorem logToAppenders_spec (apps : List (LogRecord → Option String))
    (record : LogRecord) (ch : Option ErrChan) :
    (logToAppenders apps record ch).1 = apps.map (fun a => a record) ∧
    (ch = none → (logToAppenders apps record ch).2 = none) ∧
    (∀ c : ErrChan, ch = some c →
      (logToAppenders apps record ch).2 =
        some ⟨c.cap, c.buf ++
          ((apps.map (fun a => a record)).filterMap id).take
            (c.cap - c.buf.length)⟩) := by
  refine ⟨?_, ?_, ?_⟩
  · rw [logToAppenders, logToAppenders_foldl_acc]
    simp
  · intro hnone
    rw [logToAppenders, logToAppenders_foldl_acc]
    simp [hnone, sendAll_none]
  · intro c hc
    rw [logToAppenders, logToAppenders_foldl_acc]
    simp only [hc]
    exact sendAll_some (apps.map (fun a => a record)) c

/-- Four concrete appenders: two failing, one clean, one failing. -/
def appsW : List (LogRecord → Option String) :=
  [fun _ => some "e1", fun _ => none, fun _ => some "e2", fun _ => some "e3"]

/-- Witness for C8: with a two-slot channel, all four appenders are called
in order and the channel receives exactly the first two errors. -/
theorem logToAppenders_spec_witness :
    (logToAppenders appsW recPassW (some ⟨2, []⟩)).1 =
      appsW.map (fun a => a recPassW) ∧
    (logToAppenders appsW recPassW none).2 = none ∧
    (logToAppenders appsW recPassW (some ⟨2, []⟩)).2 =
      some ⟨2, [] ++ ((appsW.map (fun a => a recPassW)).filterMap id).take (2 - 0)⟩ :=
  ⟨(logToAppenders_spec appsW recPassW (some ⟨2, []⟩)).1,
   (logToAppenders_spec appsW recPassW none).2.1 rfl,
   (logToAppenders_spec appsW recPassW (some ⟨2, []⟩)).2.2 ⟨2, []⟩ rfl⟩

/-! ### The rolling file appender

The filesystem is an association list from file names to byte sizes.  In
this model a `stat` can fail only with not-exist, so the error-free paths
of the source are the ones modelled; `os.Rename` replaces an existing
destination (POSIX semantics). -/

abbrev FileSys := List (String × Nat)

/-- `os.Stat` succeeding. -/
def fsExists (fs : FileSys) (n : String) : Bool :=
  (assocLookup fs n).isSome

/-- `os.Remove`. -/
def fsRemove (fs : FileSys) (n : String) : FileSys :=
  fs.filter (fun p => p.1 ≠ n)

/-- `os.Rename`: moves `src` onto `dst`, replacing `dst` if present. -/
def fsRename (fs : FileSys) (src dst : String) : FileSys :=
  match assocLookup fs src with
  | none => fs
  | some c => fsRemove (fsRemove fs src) dst ++ [(dst, c)]

/-- `RollingFileAppender` from the source.  The Go fields `prefix`/`suffix`
are Lean keywords and are embedded as `filePre`/`fileSuf`; `currentFile`
and `currentWriter` being non-nil is `isOpen`. -/
structure RollingFileAppender where
  filePre : String
  fileSuf : String
  maxFileSize : Int
  maxFiles : Int
  firstTime : Bool
  isOpen : Bool
deriving DecidableEq, Repr

/-- `NewRollingFileAppender` from the source: clamps `maxFiles` to at least
1 and `maxFileSize` to at least 1024, and starts in the first-time state. -/
def NewRollingFileAppender (pre suf : String) (maxFileSize maxFiles : Int) :
    RollingFileAppender :=
  { filePre := pre
    fileSuf := suf
    maxFileSize := if maxFileSize < 1024 then 1024 else maxFileSize
    maxFiles := if maxFiles ≤ 0 then 1 else maxFiles
    firstTime := true
    isOpen := false }

/-- `currentFileName`: `prefix.suffix`. -/
def currentFileName (a : RollingFileAppender) : String :=
  a.filePre ++ "." ++ a.fileSuf

/-- `needsRoll` from the source. -/
def needsRoll (a : RollingFileAppender) (fs : FileSys) : Bool :=
  if a.maxFiles = 1 then
    -- a stat error can only be not-exist here: (re)create only when missing
    !(fsExists fs (currentFileName a))
  else if a.firstTime then true
  else
    match assocLookup fs (currentFileName a) with
    | none => true
    | some size => decide (a.maxFileSize ≤ (size : Int))

/-- C6: `needsRoll`: with `maxFiles == 1` it is true exactly when the
current file is missing (never by size); with `maxFiles > 1` it is true
exactly when this is the first write since startup, or the current file is
missing, or the current file's size is at or above `maxFileSize`.  The
constructor establishes the clamps and the first-time flag. -/
theorem needsRoll_spec :
    (∀ (pre suf : String) (ms mf : Int),
      1 ≤ (NewRollingFileAppender pre suf ms mf).maxFiles ∧
      (NewRollingFileAppender pre suf ms mf).firstTime = true ∧
      1024 ≤ (NewRollingFileAppender pre suf ms mf).maxFileSize) ∧
    (∀ (a : RollingFileAppender) (fs : FileSys), a.maxFiles = 1 →
      (needsRoll a fs = true ↔ fsExists fs (currentFileName a) = false)) ∧
    (∀ (a : RollingFileAppender) (fs : FileSys), 1 < a.maxFiles →
      (needsRoll a fs = true ↔
        (a.firstTime = true ∨ fsExists fs (currentFileName a) = false ∨
          ∃ size : Nat, assocLookup fs (currentFileName a) = some size ∧
            a.maxFileSize ≤ (size : Int)))) := by
  refine ⟨?_, ?_, ?_⟩
  · intro pre suf ms mf
    refine ⟨?_, rfl, ?_⟩
    · simp only [NewRollingFileAppender]
      split <;> omega
    · simp only [NewRollingFileAppender]
      split <;> omega
  · intro a fs h1
    simp [needsRoll, h1]
  · intro a fs hgt
    have hne : a.maxFiles ≠ 1 := by omega
    simp only [needsRoll, if_neg hne]
    by_cases hft : a.firstTime
    · simp [hft]
    · simp only [hft, if_false, Bool.false_eq_true, false_or]
      cases hlook : assocLookup fs (currentFileName a) with
      | none =>
          simp [fsExists, hlook]
      | some size =>
          simp only [fsExists, hlook, Option.isSome_some, decide_eq_true_eq]
          constructor
          · intro hle
            exact Or.inr ⟨size, rfl, hle⟩
          · intro h
            rcases h with h | ⟨size2, hs2, hle⟩
            · simp at h
            · cases (Option.some_injective _ hs2)
              exact hle

/-- A one-generation appender for the C6 witness. -/
def aOneW : RollingFileAppender := NewRollingFileAppender "p" "s" 2048 1

/-- A three-generation appender past its first write, for the C6 witness. -/
def aMultiW : RollingFileAppender :=
  { NewRollingFileAppender "p" "s" 2048 3 with firstTime := false }

/-- Witness for C6: both branches of the rotation decision at concrete
appenders and filesystems. -/
theorem needsRoll_spec_witness :
    (needsRoll aOneW [] = true ↔ fsExists [] (currentFileName aOneW) = false) ∧
    (needsRoll aMultiW [("p.s", 5000)] = true ↔
      (aMultiW.firstTime = true ∨
        fsExists [("p.s", 5000)] (currentFileName aMultiW) = false ∨
        ∃ size : Nat, assocLookup [("p.s", 5000)] (currentFileName aMultiW) = some size ∧
          aMultiW.maxFileSize ≤ (size : Int))) :=
  ⟨needsRoll_spec.2.1 aOneW [] (by decide),
   needsRoll_spec.2.2 aMultiW [("p.s", 5000)] (by decide)⟩

/-- The filesystem operations a roll performs, in order. -/
inductive FsOp where
  | close
  | removeFile (n : String)
  | renameFile (src dst : String)
deriving DecidableEq, Repr

/-- The name of generation `i` (`prefix.i.suffix`), with generation 0 being
the current file `prefix.suffix`. -/
def genFileName (a : RollingFileAppender) (i : Int) : String :=
  if i = 0 then currentFileName a
  else a.filePre ++ "." ++ toString i ++ "." ++ a.fileSuf

/-- The loop indices of `Roll`: `i` from `maxFiles-2` down to `0`. -/
def rollIndices (a : RollingFileAppender) : List Int :=
  ((List.range (a.maxFiles - 1).toNat).reverse).map (fun j => (j : Int))

/-- One iteration of the `Roll` loop as the source performs it: skip a
missing file `i`; otherwise rename it onto generation `i+1`.  `os.Stat` of
the next name either succeeds or fails with not-exist, so the source's
remove branch (guarded by `err != nil && !os.IsNotExist(err)`) never runs
in this model, and the rename itself replaces an existing `i+1`. -/
def rollStep (a : RollingFileAppender) (acc : FileSys × List FsOp) (i : Int) :
    FileSys × List FsOp :=
  let fileName := genFileName a i
  if fsExists acc.1 fileName then
    let nextFileName := genFileName a (i + 1)
    (fsRename acc.1 fileName nextFileName,
      acc.2 ++ [FsOp.renameFile fileName nextFileName])
  else acc

/-- `Roll` from the source: `Close()` first (flushing and dropping the file
handle), clear `firstTime`, then run the generation loop. -/
def Roll (a : RollingFileAppender) (fs : FileSys) :
    RollingFileAppender × FileSys × List FsOp :=
  let a2 := { a with isOpen := false, firstTime := false }
  let res := (rollIndices a).foldl (rollStep a) (fs, [FsOp.close])
  (a2, res.1, res.2)

/-- One iteration of the rotation algorithm exactly as the claim words it:
when file `i` exists, first delete an already-existing generation `i+1`,
then rename file `i` to it. -/
def rollClaimStep (a : RollingFileAppender) (acc : FileSys × List FsOp) (i : Int) :
    FileSys × List FsOp :=
  let fileName := genFileName a i
  if fsExists acc.1 fileName then
    let nextFileName := genFileName a (i + 1)
    if fsExists acc.1 nextFileName then
      (fsRename (fsRemove acc.1 nextFileName) fileName nextFileName,
        acc.2 ++ [FsOp.removeFile nextFileName, FsOp.renameFile fileName nextFileName])
    else
      (fsRename acc.1 fileName nextFileName,
        acc.2 ++ [FsOp.renameFile fileName nextFileName])
  else acc

/-- The rotation algorithm of the claim, for comparison with `Roll`. -/
def rollClaim (a : RollingFileAppender) (fs : FileSys) :
    RollingFileAppender × FileSys × List FsOp :=
  let a2 := { a with isOpen := false, firstTime := false }
  let res := (rollIndices a).foldl (rollClaimStep a) (fs, [FsOp.close])
  (a2, res.1, res.2)

lemma assocLookup_fsRemove_ne (fs : FileSys) (m k : String) (h : k ≠ m) :
    assocLookup (fsRemove fs m) k = assocLookup fs k := by
  induction fs with
  | nil => rfl
  | cons p rest ih =>
      obtain ⟨n, v⟩ := p
      by_cases hnm : n = m
      · subst hnm
        have hnk : ¬n = k := fun hc => h hc.symm
        simp only [fsRemove, List.filter_cons, decide_not, decide_eq_true_eq]
        rw [if_neg (by simp)]
        simp only [assocLookup, if_neg hnk]
        simpa [fsRemove] using ih
      · simp only [fsRemove, List.filter_cons]
        rw [if_pos (by simp [hnm])]
        simp only [assocLookup]
        by_cases hnk : n = k
        · rw [if_pos hnk, if_pos hnk]
        · rw [if_neg hnk, if_neg hnk]
          simpa [fsRemove] using ih

lemma fsRemove_comm (fs : FileSys) (m n : String) :
    fsRemove (fsRemove fs m) n = fsRemove (fsRemove fs n) m := by
  simp [fsRemove, List.filter_filter, Bool.and_comm]

lemma fsRemove_idem (fs : FileSys) (m : String) :
    fsRemove (fsRemove fs m) m = fsRemove fs m := by
  simp [fsRemove, List.filter_filter]

lemma fsRename_fsRemove_dst (fs : FileSys) (src dst : String) (hne : src ≠ dst)
    (hsrc : fsExists fs src = true) :
    fsRename (fsRemove fs dst) src dst = fsRename fs src dst := by
  unfold fsRename
  rw [assocLookup_fsRemove_ne fs dst src hne]
  cases h : assocLookup fs src with
  | none => simp [fsExists, h] at hsrc
  | some c =>
      have : fsRemove (fsRemove (fsRemove fs dst) src) dst =
          fsRemove (fsRemove fs src) dst := by
        rw [fsRemove_comm fs dst src, fsRemove_idem]
      rw [this]

lemma roll_foldl_acc (a : RollingFileAppender) (idxs : List Int) :
    ∀ (fs : FileSys) (tr : List FsOp),
      idxs.foldl (rollStep a) (fs, tr) =
        ((idxs.foldl (rollStep a) (fs, [])).1,
          tr ++ (idxs.foldl (rollStep a) (fs, [])).2) := by
  induction idxs with
  | nil => intro fs tr; simp
  | cons i rest ih =>
      intro fs tr
      simp only [List.foldl_cons]
      by_cases hex : fsExists fs (genFileName a i) = true
      · simp only [rollStep, hex, if_true]
        have h1 := ih (fsRename fs (genFileName a i) (genFileName a (i + 1)))
          (tr ++ [FsOp.renameFile (genFileName a i) (genFileName a (i + 1))])
        have h2 := ih (fsRename fs (genFileName a i) (genFileName a (i + 1)))
          ([] ++ [FsOp.renameFile (genFileName a i) (genFileName a (i + 1))])
        rw [h1, h2]
        simp
      · simp only [rollStep, hex, Bool.false_eq_true, if_false]
        exact ih fs tr

lemma roll_trace_ops (a : RollingFileAppender) (idxs : List Int) :
    ∀ (fs : FileSys) (tr : List FsOp) (op : FsOp),
      op ∈ (idxs.foldl (rollStep a) (fs, tr)).2 →
      op ∈ tr ∨ ∃ src dst, op = FsOp.renameFile src dst := by
  induction idxs with
  | nil => intro fs tr op h; exact Or.inl h
  | cons i rest ih =>
      intro fs tr op h
      simp only [List.foldl_cons] at h
      by_cases hex : fsExists fs (genFileName a i) = true
      · simp only [rollStep, hex, if_true] at h
        rcases ih _ _ op h with hin | hr
        · rcases List.mem_append.mp hin with h2 | h2
          · exact Or.inl h2
          · refine Or.inr ⟨genFileName a i, genFileName a (i + 1), ?_⟩
            simpa using h2
        · exact Or.inr hr
      · simp only [rollStep, hex, Bool.false_eq_true, if_false] at h
        exact ih _ _ op h

lemma roll_fs_eq (a : RollingFileAppender) (idxs : List Int)
    (hdist : ∀ i ∈ idxs, genFileName a i ≠ genFileName a (i + 1)) :
    ∀ (fs : FileSys) (tr1 tr2 : List FsOp),
      (idxs.foldl (rollStep a) (fs, tr1)).1 =
        (idxs.foldl (rollClaimStep a) (fs, tr2)).1 := by
  induction idxs with
  | nil => intro fs tr1 tr2; rfl
  | cons i rest ih =>
      intro fs tr1 tr2
      have hdrest : ∀ j ∈ rest, genFileName a j ≠ genFileName a (j + 1) := by
        intro j hj
        exact hdist j (List.mem_cons_of_mem _ hj)
      have hdi : genFileName a i ≠ genFileName a (i + 1) :=
        hdist i (List.mem_cons_self _ _)
      simp only [List.foldl_cons]
      by_cases hex : fsExists fs (genFileName a i) = true
      · by_cases hnext : fsExists fs (genFileName a (i + 1)) = true
        · simp only [rollStep, rollClaimStep, hex, hnext, if_true]
          rw [fsRename_fsRemove_dst fs (genFileName a i) (genFileName a (i + 1))
            hdi hex]
          exact ih hdrest _ _ _
        · simp only [rollStep, rollClaimStep, hex, hnext, if_true, Bool.false_eq_true,
            if_false]
          exact ih hdrest _ _ _
      · simp only [rollStep, rollClaimStep, hex, Bool.false_eq_true, if_false]
        exact ih hdrest _ _ _

/-- C5 (amended): `Roll` first closes the current file and clears the
first-time flag; then, for `i` from `maxFiles-2` down to 0, whenever file
`i` exists it renames file `i` to generation `i+1`, the rename itself
replacing an existing generation `i+1` — no separate delete is issued (the
source's delete branch runs only for a stat error other than
non-existence, which the error-free model excludes) — so the resulting
filesystem is exactly the one the claim's delete-then-rename algorithm
produces whenever consecutive generation names are distinct, and the
highest generation is evicted once the window is full. -/
theorem roll_spec (a : RollingFileAppender) (fs : FileSys) :
    ((rollIndices a).all
        (fun i => genFileName a i ≠ genFileName a (i + 1)) = true →
      (Roll a fs).2.1 = (rollClaim a fs).2.1) ∧
    (∀ op, op ∈ (Roll a fs).2.2 →
      op = FsOp.close ∨ ∃ src dst, op = FsOp.renameFile src dst) ∧
    (Roll a fs).2.2.head? = some FsOp.close ∧
    (Roll a fs).1 = { a with isOpen := false, firstTime := false } := by
  refine ⟨?_, ?_, ?_, rfl⟩
  · intro hall
    have hdist : ∀ i ∈ rollIndices a, genFileName a i ≠ genFileName a (i + 1) := by
      intro i hi
      have := List.all_eq_true.mp hall i hi
      simpa using this
    exact roll_fs_eq a (rollIndices a) hdist fs [FsOp.close] [FsOp.close]
  · intro op hop
    have h2 : op ∈ ((rollIndices a).foldl (rollStep a) (fs, [FsOp.close])).2 := hop
    rcases roll_trace_ops a (rollIndices a) fs [FsOp.close] op h2 with hin | hr
    · exact Or.inl (by simpa using hin)
    · exact Or.inr hr
  · show ((rollIndices a).foldl (rollStep a) (fs, [FsOp.close])).2.head? =
      some FsOp.close
    rw [roll_foldl_acc a (rollIndices a) fs [FsOp.close]]
    rfl

/-- A three-generation appender for the C5 counterexample and witness. -/
def a0 : RollingFileAppender := NewRollingFileAppender "p" "s" 2048 3

/-- A filesystem holding the current file and both generations. -/
def fs0 : FileSys := [("p.s", 10), ("p.1.s", 10), ("p.2.s", 10)]

/-- Counterexample to C5 as stated: generation 2 exists, yet the roll issues
no delete of it — the source's delete is guarded by
`err != nil && !os.IsNotExist(err)`, which is false when the stat succeeds,
so the rename simply replaces the file; the claim's algorithm would delete
`p.2.s` first. -/
theorem roll_no_predelete_counterexample :
    fsExists fs0 (genFileName a0 2) = true ∧
    (Roll a0 fs0).2.2 =
      [FsOp.close, FsOp.renameFile "p.1.s" "p.2.s", FsOp.renameFile "p.s" "p.1.s"] ∧
    FsOp.removeFile "p.2.s" ∉ (Roll a0 fs0).2.2 ∧
    FsOp.removeFile "p.2.s" ∈ (rollClaim a0 fs0).2.2 := by
  decide

/-- Witness for C5 (amended): at the concrete appender and filesystem the
roll's resulting filesystem coincides with the claim algorithm's, and the
trace membership hypothesis is dischargeable. -/
theorem roll_spec_witness :
    (Roll a0 fs0).2.1 = (rollClaim a0 fs0).2.1 ∧
    (FsOp.close = FsOp.close ∨ ∃ src dst, FsOp.close = FsOp.renameFile src dst) :=
  ⟨(roll_spec a0 fs0).1 (by decide),
   (roll_spec a0 fs0).2.1 FsOp.close (by decide)⟩

end Logging
